import Mathlib

/-
Verification development for the maze subsystem of Labyrnith_Survival
(src/server/game/MazeGenerator.js).  The grid, the solvability validator,
the repair corridor, the wall-shift step, the refinement passes relevant
to the claims, the pattern selection, and the constructor are embedded
as executable Lean definitions.  Randomness (Math.random) is modelled as
an explicit stream of rationals in [0,1), consumed in the same order as
the source consumes its draws.
-/

namespace Maze

/-- A grid coordinate; the source addresses cells as integer pairs (x, y). -/
abbrev Cell : Type := ℤ × ℤ

/-- The maze grid: `true` is a wall, `false` is a path (MazeGenerator.js line 21). -/
abbrev Grid : Type := ℤ → ℤ → Bool

/-- The four scan directions Up, Right, Down, Left, in source order
(MazeGenerator.js lines 31-36). -/
def dirs : List Cell := [(0, 1), (1, 0), (0, -1), (-1, 0)]

/-- Pointwise cell update, modelling the assignment `this.mazeGrid[x][y] = b`. -/
def setCell (g : Grid) (c : Cell) (b : Bool) : Grid :=
  fun x y => if x = c.1 ∧ y = c.2 then b else g x y

/-- A cell is a path cell when its grid entry is `false`. -/
def isPath (g : Grid) (c : Cell) : Prop := g c.1 c.2 = false

instance (g : Grid) (c : Cell) : Decidable (isPath g c) := by
  unfold isPath; infer_instance

/-- Bounds check, embedding `isInBounds` (MazeGenerator.js lines 175-177). -/
def inBounds (w h : ℤ) (c : Cell) : Prop :=
  0 ≤ c.1 ∧ c.1 < w ∧ 0 ≤ c.2 ∧ c.2 < h

instance (w h : ℤ) (c : Cell) : Decidable (inBounds w h c) := by
  unfold inBounds; infer_instance

/-- The four orthogonal neighbors of a cell, in source direction order. -/
def nbrs (c : Cell) : List Cell := dirs.map (fun d => (c.1 + d.1, c.2 + d.2))

/-- Number of in-bounds open orthogonal neighbors: the `adjacentPaths`
count computed by the source via `this.directions.forEach`. -/
def openCount (g : Grid) (w h : ℤ) (c : Cell) : Nat :=
  ((nbrs c).filter (fun d => decide (inBounds w h d) && !(g d.1 d.2))).length

/-- Squared Euclidean distance.  The source compares
`Math.sqrt(dx*dx + dy*dy) < k` for integer coordinates and integer `k`,
which is equivalent to `dx^2 + dy^2 < k^2`. -/
def distSq (a b : Cell) : ℤ := (a.1 - b.1) ^ 2 + (a.2 - b.2) ^ 2

/-- All cells of the grid in the scan order used by the source
(outer loop on x ascending, inner loop on y ascending). -/
def cellList (w h : ℤ) : List Cell :=
  (List.range w.toNat).flatMap
    (fun (i : ℕ) => (List.range h.toNat).map (fun (j : ℕ) => ((i : ℤ), (j : ℤ))))

/-- One step of traversal between path cells: the destination is an
orthogonal neighbor that is in bounds and open, exactly the condition
under which the source BFS enqueues a cell (MazeGenerator.js line 495). -/
def step (g : Grid) (w h : ℤ) (c d : Cell) : Prop :=
  d ∈ nbrs c ∧ inBounds w h d ∧ isPath g d

/-- Four-connectedness through path cells: reflexive-transitive closure of `step`. -/
def Reaches (g : Grid) (w h : ℤ) (a b : Cell) : Prop :=
  Relation.ReflTransGen (step g w h) a b

/-- Breadth-first search worker, embedding the queue loop of
`ensureMazeIsSolvable` (MazeGenerator.js lines 476-500): dequeue from the
front, succeed when the dequeued cell is the exit, otherwise enqueue the
in-bounds unvisited open neighbors and mark them visited at push time.
The fuel argument only bounds the iteration count; the source loop runs
at most width*height iterations because every enqueued cell is marked
visited at push time and never enqueued again. -/
def bfsAux (g : Grid) (w h : ℤ) (e : Cell) :
    Nat → List Cell → (Cell → Bool) → Bool
  | 0, _, _ => false
  | _ + 1, [], _ => false
  | fuel + 1, c :: queue, visited =>
    if c = e then true
    else
      let ns := (nbrs c).filter
        (fun d => decide (inBounds w h d) && !(g d.1 d.2) && !(visited d))
      bfsAux g w h e fuel (queue ++ ns)
        (fun d => visited d || ns.any (fun d2 => decide (d2 = d)))

/-- Breadth-first search from `s`, with the start marked visited initially
as in the source (line 478), and fuel `w*h + 1` which the source loop
never exceeds. -/
def bfsReaches (g : Grid) (w h : ℤ) (s e : Cell) : Bool :=
  bfsAux g w h e ((w * h).toNat + 1) [s] (fun d => decide (d = s))

/-- Probe-start selection of `ensureMazeIsSolvable` (lines 461-471): the
first cell in scan order that is a path cell and is not the exit. -/
def findStart (g : Grid) (w h : ℤ) (e : Cell) : Option Cell :=
  (cellList w h).find? (fun c => !(g c.1 c.2) && !(decide (c = e)))

/-- Rightward leg of the repair corridor: `while (x !== target) { x += 1;
grid[x][y] = false }`, unrolled over the step count. -/
def carveSegR : Grid → ℤ → ℤ → Nat → Grid
  | g, _, _, 0 => g
  | g, y, x, n + 1 => carveSegR (setCell g (x + 1, y) false) y (x + 1) n

/-- Leftward leg of the repair corridor. -/
def carveSegL : Grid → ℤ → ℤ → Nat → Grid
  | g, _, _, 0 => g
  | g, y, x, n + 1 => carveSegL (setCell g (x - 1, y) false) y (x - 1) n

/-- Upward leg of the repair corridor (column fixed). -/
def carveSegU : Grid → ℤ → ℤ → Nat → Grid
  | g, _, _, 0 => g
  | g, xc, y, n + 1 => carveSegU (setCell g (xc, y + 1) false) xc (y + 1) n

/-- Downward leg of the repair corridor (column fixed). -/
def carveSegD : Grid → ℤ → ℤ → Nat → Grid
  | g, _, _, 0 => g
  | g, xc, y, n + 1 => carveSegD (setCell g (xc, y - 1) false) xc (y - 1) n

/-- Repair procedure `createPathToExit` (MazeGenerator.js lines 512-532):
carve horizontally from the start column to the exit column along the
start row (step +1 when dx > 0, else -1; zero iterations when dx = 0),
then vertically along the exit column to the exit row. -/
def createPathToExit (g : Grid) (s e : Cell) : Grid :=
  let g1 :=
    if s.1 < e.1 then carveSegR g s.2 s.1 (e.1 - s.1).toNat
    else carveSegL g s.2 s.1 (s.1 - e.1).toNat
  if s.2 < e.2 then carveSegU g1 e.1 s.2 (e.2 - s.2).toNat
  else carveSegD g1 e.1 s.2 (s.2 - e.2).toNat

/-- Solvability validator `ensureMazeIsSolvable` (lines 459-506): find the
probe start; if none, return unchanged; otherwise BFS to the exit and, on
failure, run the repair. -/
def ensureMazeIsSolvable (g : Grid) (w h : ℤ) (e : Cell) : Grid :=
  match findStart g w h e with
  | none => g
  | some s => if bfsReaches g w h s e then g else createPathToExit g s e

/-- Solvability from every path cell, stated with the same breadth-first
search the specification's invariant refers to: every in-bounds path cell
reaches the exit. -/
def solvableAll (g : Grid) (w h : ℤ) (e : Cell) : Bool :=
  (cellList w h).all (fun c => g c.1 c.2 || bfsReaches g w h c e)

/-- Wall-shift probability, source field `shiftChance = 0.2`. -/
def shiftChance : ℚ := mkRat 1 5

lemma shiftChance_eq : shiftChance = 1 / 5 := by
  unfold shiftChance
  norm_num [Rat.mkRat_eq_div]

/-- Interior cells in scan order: `for (x = 1; x < width-1) for (y = 1; y < height-1)`. -/
def interiorCells (w h : ℤ) : List Cell :=
  (List.range (w - 2).toNat).flatMap
    (fun (i : ℕ) => (List.range (h - 2).toNat).map (fun (j : ℕ) => ((1 + i : ℤ), (1 + j : ℤ))))

/-- Batch collection of `shiftMazeWalls` (lines 559-601): scan the interior
cells; skip cells within Euclidean distance < 3 of the exit before drawing;
otherwise consume one random draw, and when it is below `shiftChance`
record a wall-to-path conversion if the cell is a wall with at most 2 open
neighbors, or a path-to-wall conversion if it is a path with at least 3
open neighbors.  All neighbor counts read the unmodified input grid, as in
the source where mutation happens only after the scan. -/
def collectGo (g : Grid) (w h : ℤ) (e : Cell) (stream : Nat → ℚ) :
    List Cell → Nat → List (Cell × Bool)
  | [], _ => []
  | c :: rest, i =>
    if distSq c e < 9 then collectGo g w h e stream rest i
    else if stream i < shiftChance then
      (if g c.1 c.2 then
        (if openCount g w h c ≤ 2 then (c, false) :: collectGo g w h e stream rest (i + 1)
         else collectGo g w h e stream rest (i + 1))
       else
        (if 3 ≤ openCount g w h c then (c, true) :: collectGo g w h e stream rest (i + 1)
         else collectGo g w h e stream rest (i + 1)))
    else collectGo g w h e stream rest (i + 1)

/-- The conversion batch of one shift firing. -/
def collectShifts (g : Grid) (w h : ℤ) (e : Cell) (stream : Nat → ℚ) :
    List (Cell × Bool) :=
  collectGo g w h e stream (interiorCells w h) 0

/-- Batch application (`wallsToShift.forEach`, lines 604-606). -/
def applyBatch (l : List (Cell × Bool)) (g : Grid) : Grid :=
  l.foldl (fun acc p => setCell acc p.1 p.2) g

/-- One full shift firing (lines 554-610): collect the batch, apply it,
then re-run the solvability validator. -/
def shiftMazeWalls (g : Grid) (w h : ℤ) (e : Cell) (stream : Nat → ℚ) : Grid :=
  ensureMazeIsSolvable (applyBatch (collectShifts g w h e stream) g) w h e

/-- Mutable state of a MazeGenerator instance, restricted to the fields the
claims are about. -/
structure MazeSt where
  width : ℤ
  height : ℤ
  cellSize : ℚ
  grid : Grid
  exitPos : Cell
  nextShiftTime : ℚ

/-- Source field `shiftInterval = 60` seconds. -/
def shiftInterval : ℚ := 60

/-- The update entry point `updateMaze(deltaTime)` (lines 539-549):
decrement the countdown by `deltaTime / 1000`; when it reaches zero or
below, fire `shiftMazeWalls`, reset the countdown, and return true;
otherwise return false. -/
def updateMaze (st : MazeSt) (deltaTime : ℚ) (stream : Nat → ℚ) : Bool × MazeSt :=
  let t := st.nextShiftTime - deltaTime / 1000
  if t ≤ 0 then
    (true,
     { st with
        grid := shiftMazeWalls st.grid st.width st.height st.exitPos stream,
        nextShiftTime := shiftInterval })
  else (false, { st with nextShiftTime := t })

/-- Count of open neighbors of `nb` other than the cell `c`, the
`neighborPaths` count of the noise pass (lines 430-441). -/
def otherOpenCount (g : Grid) (w h : ℤ) (c nb : Cell) : Nat :=
  ((nbrs nb).filter
    (fun d => decide (inBounds w h d) && !(g d.1 d.2) && !(decide (d = c)))).length

/-- The `createDeadEnd` flag of the noise pass (lines 424-447): it stays
true exactly when every in-bounds open neighbor of `c` has at least 2 open
neighbors other than `c`. -/
def noDeadEndFlag (g : Grid) (w h : ℤ) (c : Cell) : Bool :=
  (nbrs c).all
    (fun nb => !(decide (inBounds w h nb) && !(g nb.1 nb.2)) ||
      decide (2 ≤ otherOpenCount g w h c nb))

/-- Iterations of the noise pass `addRandomVariations` (lines 396-454):
draw x and y, skip cells within distance < 3 of the exit, flip a wall with
at least 3 open neighbors to path, and flip a path with at most 1 open
neighbor to wall when the dead-end flag allows it and a further draw is
below 0.3 (that draw is consumed only when the flag is true, matching the
short-circuit evaluation in the source). -/
def noiseGo (w h : ℤ) (e : Cell) (stream : Nat → ℚ) :
    Nat → Grid → Nat → Grid
  | 0, g, _ => g
  | n + 1, g, i =>
    let x : ℤ := ⌊stream i * ((w : ℚ) - 2)⌋ + 1
    let y : ℤ := ⌊stream (i + 1) * ((h : ℚ) - 2)⌋ + 1
    if distSq (x, y) e < 9 then noiseGo w h e stream n g (i + 2)
    else
      if g x y && decide (3 ≤ openCount g w h (x, y)) then
        noiseGo w h e stream n (setCell g (x, y) false) (i + 2)
      else if !(g x y) && decide (openCount g w h (x, y) ≤ 1) then
        (if noDeadEndFlag g w h (x, y) then
          (if stream (i + 2) < mkRat 3 10 then
            noiseGo w h e stream n (setCell g (x, y) true) (i + 3)
          else noiseGo w h e stream n g (i + 3))
        else noiseGo w h e stream n g (i + 2))
      else noiseGo w h e stream n g (i + 2)

/-- The noise pass, iterated `floor(width*height/10)` times (line 397). -/
def addRandomVariations (g : Grid) (w h : ℤ) (e : Cell) (stream : Nat → ℚ) : Grid :=
  noiseGo w h e stream ((w * h / 10).toNat) g 0

/-- Integer span from `a` to `b` inclusive, ascending. -/
def spanList (a b : ℤ) : List ℤ :=
  (List.range (b - a + 1).toNat).map (fun i => a + i)

/-- Cells of a rectangle, x outer ascending, y inner ascending, matching
the chamber-carving loops (lines 270-276). -/
def rectCells (x1 x2 y1 y2 : ℤ) : List Cell :=
  (spanList x1 x2).flatMap (fun x => (spanList y1 y2).map (fun y => (x, y)))

/-- Clear a rectangle to path, guarded by `isInBounds` as in the source. -/
def carveRect (g : Grid) (w h : ℤ) (x1 x2 y1 y2 : ℤ) : Grid :=
  (rectCells x1 x2 y1 y2).foldl
    (fun acc c => if inBounds w h c then setCell acc c false else acc) g

/-- Interior pillars of a chamber (lines 279-289): each pillar draws two
randoms for its offset from the chamber center and is placed only in bounds. -/
def pillarLoop (w h cx cy : ℤ) (stream : Nat → ℚ) :
    Nat → Grid → Nat → Grid
  | 0, g, _ => g
  | p + 1, g, i =>
    let px := cx - 1 + ⌊stream i * 3⌋
    let py := cy - 1 + ⌊stream (i + 1) * 3⌋
    if inBounds w h (px, py) then
      pillarLoop w h cx cy stream p (setCell g (px, py) true) (i + 2)
    else pillarLoop w h cx cy stream p g (i + 2)

/-- Chamber iterations of `createChambers` (lines 249-291): draw center x,
center y, width and height; skip the chamber when the center is within
Euclidean distance < 5 of the exit; otherwise carve the rectangle and,
for chambers of width and height at least 4, draw a pillar count and place
the pillars. -/
def chambersGo (w h : ℤ) (e : Cell) (stream : Nat → ℚ) :
    Nat → Grid → Nat → Grid
  | 0, g, _ => g
  | n + 1, g, i =>
    let cx := 2 + ⌊stream i * ((w : ℚ) - 4)⌋
    let cy := 2 + ⌊stream (i + 1) * ((h : ℚ) - 4)⌋
    let cw := 3 + ⌊stream (i + 2) * 3⌋
    let ch := 3 + ⌊stream (i + 3) * 3⌋
    if distSq (cx, cy) e < 25 then chambersGo w h e stream n g (i + 4)
    else
      let g2 := carveRect g w h (cx - cw / 2) (cx + cw / 2) (cy - ch / 2) (cy + ch / 2)
      if 4 ≤ cw ∧ 4 ≤ ch then
        let pc := (1 + ⌊stream (i + 4) * 2⌋).toNat
        chambersGo w h e stream n (pillarLoop w h cx cy stream pc g2 (i + 5))
          (i + 5 + 2 * pc)
      else chambersGo w h e stream n g2 (i + 4)

/-- The chamber pass: `2 + floor(random()*3)` chambers (line 251). -/
def createChambers (g : Grid) (w h : ℤ) (e : Cell) (stream : Nat → ℚ) : Grid :=
  chambersGo w h e stream (2 + ⌊stream 0 * 3⌋).toNat g 1

/-- The four base-structure strategies named by the specification. -/
inductive PatternKind where
  | spanningTree
  | geometric
  | concentric
  | symmetric
deriving DecidableEq

/-- Dispatch of `generateMaze` on `patternType` (lines 52-64): cases 0, 1, 2
pick the three pattern generators; the switch default falls back to
`runPrimsAlgorithm`. -/
def patternFor (t : ℤ) : PatternKind :=
  if t = 0 then .geometric
  else if t = 1 then .concentric
  else if t = 2 then .symmetric
  else .spanningTree

/-- Pattern chosen from one random draw: the constructor sets
`patternType = Math.floor(Math.random() * 3)` (line 40). -/
def selectedPattern (q : ℚ) : PatternKind := patternFor ⌊q * 3⌋

/-- Constructor of MazeGenerator (lines 12-41).  The source performs no
dimension validation.  Line 22 builds
`Array(width).fill().map(() => Array(height).fill(true))`: `Array(width)`
throws a RangeError when the width is negative, and `Array(height)` is
evaluated only inside the map callback, which runs once per element of the
width-length array — so a negative height throws only when the width is
positive, and `new MazeGenerator(0, -5, 2)` succeeds with an empty grid.
`none` models the RangeError; otherwise the instance is built with an
all-wall grid, `exitPosition = (0,0)` and `nextShiftTime = 0`. -/
def mkMazeGenerator (w h : ℤ) (cellSize : ℚ) : Option MazeSt :=
  if w < 0 ∨ (0 < w ∧ h < 0) then none
  else some
    { width := w, height := h, cellSize := cellSize,
      grid := fun _ _ => true, exitPos := (0, 0), nextShiftTime := 0 }

/-- The axis-aligned L corridor the repair is claimed to carve: the cells
of the start row with column strictly past the start column up to the exit
column, then the cells of the exit column with row strictly past the start
row up to the exit row.  This definition follows the specification's words
and is compared against the source translation `createPathToExit`. -/
def lCorridor (s e c : Cell) : Prop :=
  (c.2 = s.2 ∧ c.1 ≠ s.1 ∧ min s.1 e.1 ≤ c.1 ∧ c.1 ≤ max s.1 e.1) ∨
  (c.1 = e.1 ∧ c.2 ≠ s.2 ∧ min s.2 e.2 ≤ c.2 ∧ c.2 ≤ max s.2 e.2)

instance (s e c : Cell) : Decidable (lCorridor s e c) := by
  unfold lCorridor; infer_instance

lemma carveSegR_apply (y : ℤ) (n : ℕ) :
    ∀ (g : Grid) (x a b : ℤ),
      carveSegR g y x n a b = if b = y ∧ x < a ∧ a ≤ x + n then false else g a b := by
  induction n with
  | zero =>
    intro g x a b
    simp only [carveSegR]
    rw [if_neg]
    omega
  | succ n ih =>
    intro g x a b
    simp only [carveSegR]
    rw [ih]
    simp only [setCell]
    split_ifs <;> first | rfl | (exfalso; omega)

lemma carveSegL_apply (y : ℤ) (n : ℕ) :
    ∀ (g : Grid) (x a b : ℤ),
      carveSegL g y x n a b = if b = y ∧ x - n ≤ a ∧ a < x then false else g a b := by
  induction n with
  | zero =>
    intro g x a b
    simp only [carveSegL]
    rw [if_neg]
    omega
  | succ n ih =>
    intro g x a b
    simp only [carveSegL]
    rw [ih]
    simp only [setCell]
    split_ifs <;> first | rfl | (exfalso; omega)

lemma carveSegU_apply (xc : ℤ) (n : ℕ) :
    ∀ (g : Grid) (y a b : ℤ),
      carveSegU g xc y n a b = if a = xc ∧ y < b ∧ b ≤ y + n then false else g a b := by
  induction n with
  | zero =>
    intro g y a b
    simp only [carveSegU]
    rw [if_neg]
    omega
  | succ n ih =>
    intro g y a b
    simp only [carveSegU]
    rw [ih]
    simp only [setCell]
    split_ifs <;> first | rfl | (exfalso; omega)

lemma carveSegD_apply (xc : ℤ) (n : ℕ) :
    ∀ (g : Grid) (y a b : ℤ),
      carveSegD g xc y n a b = if a = xc ∧ y - n ≤ b ∧ b < y then false else g a b := by
  induction n with
  | zero =>
    intro g y a b
    simp only [carveSegD]
    rw [if_neg]
    omega
  | succ n ih =>
    intro g y a b
    simp only [carveSegD]
    rw [ih]
    simp only [setCell]
    split_ifs <;> first | rfl | (exfalso; omega)

/-- Pointwise description of the repair: it clears exactly the L corridor
and leaves every other cell as it was. -/
lemma createPathToExit_apply (g : Grid) (s e : Cell) (a b : ℤ) :
    createPathToExit g s e a b = if lCorridor s e (a, b) then false else g a b := by
  unfold createPathToExit lCorridor
  by_cases h1 : s.1 < e.1 <;> by_cases h2 : s.2 < e.2 <;>
    simp only [h1, h2, if_true, if_false] <;>
    [rw [carveSegU_apply, carveSegR_apply];
     rw [carveSegD_apply, carveSegR_apply];
     rw [carveSegU_apply, carveSegL_apply];
     rw [carveSegD_apply, carveSegL_apply]] <;>
    split_ifs <;> first | rfl | (exfalso; omega)

lemma reaches_row_r (g : Grid) (w h x y : ℤ) (n : ℕ)
    (H : ∀ k : ℕ, 1 ≤ k → k ≤ n → inBounds w h (x + k, y) ∧ isPath g (x + k, y)) :
    Reaches g w h (x, y) (x + n, y) := by
  induction n with
  | zero => simpa using Relation.ReflTransGen.refl
  | succ n ih =>
    refine Relation.ReflTransGen.tail (ih fun k h1 h2 => H k h1 (by omega)) ?_
    refine ⟨?_, (H (n + 1) (by omega) le_rfl).1, (H (n + 1) (by omega) le_rfl).2⟩
    refine List.mem_map.mpr ⟨(1, 0), by simp [dirs], ?_⟩
    simp only [Prod.mk.injEq]
    constructor <;> push_cast <;> ring

lemma reaches_row_l (g : Grid) (w h x y : ℤ) (n : ℕ)
    (H : ∀ k : ℕ, 1 ≤ k → k ≤ n → inBounds w h (x - k, y) ∧ isPath g (x - k, y)) :
    Reaches g w h (x, y) (x - n, y) := by
  induction n with
  | zero => simpa using Relation.ReflTransGen.refl
  | succ n ih =>
    refine Relation.ReflTransGen.tail (ih fun k h1 h2 => H k h1 (by omega)) ?_
    refine ⟨?_, (H (n + 1) (by omega) le_rfl).1, (H (n + 1) (by omega) le_rfl).2⟩
    refine List.mem_map.mpr ⟨(-1, 0), by simp [dirs], ?_⟩
    simp only [Prod.mk.injEq]
    constructor <;> push_cast <;> ring

lemma reaches_col_u (g : Grid) (w h x y : ℤ) (n : ℕ)
    (H : ∀ k : ℕ, 1 ≤ k → k ≤ n → inBounds w h (x, y + k) ∧ isPath g (x, y + k)) :
    Reaches g w h (x, y) (x, y + n) := by
  induction n with
  | zero => simpa using Relation.ReflTransGen.refl
  | succ n ih =>
    refine Relation.ReflTransGen.tail (ih fun k h1 h2 => H k h1 (by omega)) ?_
    refine ⟨?_, (H (n + 1) (by omega) le_rfl).1, (H (n + 1) (by omega) le_rfl).2⟩
    refine List.mem_map.mpr ⟨(0, 1), by simp [dirs], ?_⟩
    simp only [Prod.mk.injEq]
    constructor <;> push_cast <;> ring

lemma reaches_col_d (g : Grid) (w h x y : ℤ) (n : ℕ)
    (H : ∀ k : ℕ, 1 ≤ k → k ≤ n → inBounds w h (x, y - k) ∧ isPath g (x, y - k)) :
    Reaches g w h (x, y) (x, y - n) := by
  induction n with
  | zero => simpa using Relation.ReflTransGen.refl
  | succ n ih =>
    refine Relation.ReflTransGen.tail (ih fun k h1 h2 => H k h1 (by omega)) ?_
    refine ⟨?_, (H (n + 1) (by omega) le_rfl).1, (H (n + 1) (by omega) le_rfl).2⟩
    refine List.mem_map.mpr ⟨(0, -1), by simp [dirs], ?_⟩
    simp only [Prod.mk.injEq]
    constructor <;> push_cast <;> ring

/-- Every cell of the L corridor is a path cell after the repair. -/
lemma corridor_is_path (g : Grid) (s e : Cell) (c : Cell) (hc : lCorridor s e c) :
    isPath (createPathToExit g s e) c := by
  show createPathToExit g s e c.1 c.2 = false
  rw [createPathToExit_apply]
  exact if_pos hc

/-- After the repair, the probe start is 4-connected to the exit. -/
lemma reaches_corridor (g : Grid) (w h : ℤ) (s e : Cell)
    (hs : inBounds w h s) (he : inBounds w h e) :
    Reaches (createPathToExit g s e) w h s e := by
  obtain ⟨hs1, hs2, hs3, hs4⟩ := hs
  obtain ⟨he1, he2, he3, he4⟩ := he
  have hmid : Reaches (createPathToExit g s e) w h s (e.1, s.2) := by
    rcases lt_trichotomy s.1 e.1 with hx | hx | hx
    · have h0 := reaches_row_r (createPathToExit g s e) w h s.1 s.2 (e.1 - s.1).toNat ?_
      · rwa [show s.1 + ((e.1 - s.1).toNat : ℤ) = e.1 by omega] at h0
      · intro k hk1 hk2
        refine ⟨⟨by omega, by omega, by omega, by omega⟩, ?_⟩
        exact corridor_is_path g s e (s.1 + k, s.2) (Or.inl ⟨rfl, by omega, by omega, by omega⟩)
    · rw [show ((e.1 : ℤ), s.2) = s by rw [← hx]]
      exact Relation.ReflTransGen.refl
    · have h0 := reaches_row_l (createPathToExit g s e) w h s.1 s.2 (s.1 - e.1).toNat ?_
      · rwa [show s.1 - ((s.1 - e.1).toNat : ℤ) = e.1 by omega] at h0
      · intro k hk1 hk2
        refine ⟨⟨by omega, by omega, by omega, by omega⟩, ?_⟩
        exact corridor_is_path g s e (s.1 - k, s.2) (Or.inl ⟨rfl, by omega, by omega, by omega⟩)
  refine hmid.trans ?_
  rcases lt_trichotomy s.2 e.2 with hy | hy | hy
  · have h0 := reaches_col_u (createPathToExit g s e) w h e.1 s.2 (e.2 - s.2).toNat ?_
    · rwa [show s.2 + ((e.2 - s.2).toNat : ℤ) = e.2 by omega] at h0
    · intro k hk1 hk2
      refine ⟨⟨by omega, by omega, by omega, by omega⟩, ?_⟩
      exact corridor_is_path g s e (e.1, s.2 + k) (Or.inr ⟨rfl, by omega, by omega, by omega⟩)
  · rw [show ((e.1 : ℤ), s.2) = e from by rw [hy]]
  · have h0 := reaches_col_d (createPathToExit g s e) w h e.1 s.2 (s.2 - e.2).toNat ?_
    · rwa [show s.2 - ((s.2 - e.2).toNat : ℤ) = e.2 by omega] at h0
    · intro k hk1 hk2
      refine ⟨⟨by omega, by omega, by omega, by omega⟩, ?_⟩
      exact corridor_is_path g s e (e.1, s.2 - k) (Or.inr ⟨rfl, by omega, by omega, by omega⟩)

/-- Soundness of the embedded breadth-first search: when every queued cell
is reachable from the origin, a positive answer means the exit is reachable. -/
lemma bfsAux_sound (g : Grid) (w h : ℤ) (e s : Cell) :
    ∀ (fuel : ℕ) (q : List Cell) (vis : Cell → Bool),
      (∀ c ∈ q, Reaches g w h s c) → bfsAux g w h e fuel q vis = true →
      Reaches g w h s e := by
  intro fuel
  induction fuel with
  | zero => intro q vis _ hrun; simp [bfsAux] at hrun
  | succ fuel ih =>
    intro q vis hq hrun
    match q, hq with
    | [], _ => simp [bfsAux] at hrun
    | c :: rest, hq =>
      simp only [bfsAux] at hrun
      by_cases hc : c = e
      · exact hc ▸ hq c (List.mem_cons_self c rest)
      · rw [if_neg hc] at hrun
        refine ih _ _ ?_ hrun
        intro d hd
        rcases List.mem_append.mp hd with hd1 | hd2
        · exact hq d (List.mem_cons_of_mem _ hd1)
        · have hmem := List.mem_filter.mp hd2
          have hcond := hmem.2
          simp only [Bool.and_eq_true, Bool.not_eq_true', decide_eq_true_eq] at hcond
          exact (hq c (List.mem_cons_self c rest)).tail
            ⟨hmem.1, hcond.1.1, hcond.1.2⟩

/-- The BFS answers true only by dequeuing the exit, and everything that is
ever enqueued other than the initial cell is an open cell; hence a positive
answer forces the exit to be a path cell or the start itself. -/
lemma bfsAux_exitPath (g : Grid) (w h : ℤ) (e s : Cell) :
    ∀ (fuel : ℕ) (q : List Cell) (vis : Cell → Bool),
      (∀ c ∈ q, isPath g c ∨ c = s) → bfsAux g w h e fuel q vis = true →
      isPath g e ∨ e = s := by
  intro fuel
  induction fuel with
  | zero => intro q vis _ hrun; simp [bfsAux] at hrun
  | succ fuel ih =>
    intro q vis hq hrun
    match q, hq with
    | [], _ => simp [bfsAux] at hrun
    | c :: rest, hq =>
      simp only [bfsAux] at hrun
      by_cases hc : c = e
      · exact hc ▸ hq c (List.mem_cons_self c rest)
      · rw [if_neg hc] at hrun
        refine ih _ _ ?_ hrun
        intro d hd
        rcases List.mem_append.mp hd with hd1 | hd2
        · exact hq d (List.mem_cons_of_mem _ hd1)
        · have hmem := List.mem_filter.mp hd2
          have hcond := hmem.2
          simp only [Bool.and_eq_true, Bool.not_eq_true', decide_eq_true_eq] at hcond
          exact Or.inl hcond.1.2

lemma bfsReaches_sound (g : Grid) (w h : ℤ) (s e : Cell)
    (hb : bfsReaches g w h s e = true) : Reaches g w h s e := by
  refine bfsAux_sound g w h e s _ [s] _ ?_ hb
  intro c hc
  rw [List.mem_singleton.mp hc]
  exact Relation.ReflTransGen.refl

lemma bfsReaches_exitPath (g : Grid) (w h : ℤ) (s e : Cell)
    (hb : bfsReaches g w h s e = true) : isPath g e ∨ e = s := by
  refine bfsAux_exitPath g w h e s _ [s] _ ?_ hb
  intro c hc
  exact Or.inr (List.mem_singleton.mp hc)

lemma mem_cellList (w h : ℤ) (c : Cell) : c ∈ cellList w h ↔ inBounds w h c := by
  obtain ⟨cx, cy⟩ := c
  constructor
  · intro hmem
    obtain ⟨i, hi, hmem2⟩ := List.mem_flatMap.mp hmem
    obtain ⟨j, hj, heq⟩ := List.mem_map.mp hmem2
    rw [List.mem_range] at hi hj
    cases heq
    exact ⟨by omega, by omega, by omega, by omega⟩
  · intro hb
    obtain ⟨h1, h2, h3, h4⟩ := hb
    refine List.mem_flatMap.mpr ⟨cx.toNat, ?_, List.mem_map.mpr ⟨cy.toNat, ?_, ?_⟩⟩
    · rw [List.mem_range]; omega
    · rw [List.mem_range]; omega
    · rw [Int.toNat_of_nonneg h1, Int.toNat_of_nonneg h3]

lemma findStart_some (g : Grid) (w h : ℤ) (e s : Cell)
    (hf : findStart g w h e = some s) :
    inBounds w h s ∧ isPath g s ∧ s ≠ e := by
  unfold findStart at hf
  have hmem := List.mem_of_find?_eq_some hf
  have hp := List.find?_some hf
  simp only [Bool.and_eq_true, Bool.not_eq_true', decide_eq_false_iff_not] at hp
  exact ⟨(mem_cellList w h s).mp hmem, hp.1, hp.2⟩

lemma findStart_none (g : Grid) (w h : ℤ) (e : Cell)
    (hf : findStart g w h e = none) :
    ∀ c, inBounds w h c → isPath g c → c = e := by
  unfold findStart at hf
  rw [List.find?_eq_none] at hf
  intro c hc hp
  by_contra hne
  have hpred := hf c ((mem_cellList w h c).mpr hc)
  apply hpred
  have hcp : g c.1 c.2 = false := hp
  simp [hcp, hne]

/-- The validator never converts a path cell to a wall. -/
lemma ensure_keeps_path (g : Grid) (w h : ℤ) (e c : Cell)
    (hp : isPath g c) : isPath (ensureMazeIsSolvable g w h e) c := by
  unfold ensureMazeIsSolvable
  cases hfs : findStart g w h e with
  | none => exact hp
  | some s =>
    show isPath (if bfsReaches g w h s e = true then g else createPathToExit g s e) c
    split_ifs with hb
    · exact hp
    · show createPathToExit g s e c.1 c.2 = false
      rw [createPathToExit_apply]
      split_ifs with hL
      · rfl
      · exact hp

/-- Provided the grid holds at least one path cell, the exit is a path cell
after the validator runs: either it already was and the validator never
walls a cell, or BFS cannot dequeue a walled exit, so the repair runs and
its final carve clears the exit. -/
lemma ensure_exit_path (g : Grid) (w h : ℤ) (e : Cell)
    (hex : ∃ c, inBounds w h c ∧ isPath g c) :
    isPath (ensureMazeIsSolvable g w h e) e := by
  by_cases hpe : isPath g e
  · exact ensure_keeps_path g w h e e hpe
  · obtain ⟨c, hc, hcp⟩ := hex
    unfold ensureMazeIsSolvable
    cases hfs : findStart g w h e with
    | none => exact absurd (findStart_none g w h e hfs c hc hcp ▸ hcp) hpe
    | some s =>
      obtain ⟨hsb, hsp, hsne⟩ := findStart_some g w h e s hfs
      show isPath (if bfsReaches g w h s e = true then g else createPathToExit g s e) e
      split_ifs with hb
      · rcases bfsReaches_exitPath g w h s e hb with h1 | h2
        · exact absurd h1 hpe
        · exact absurd (h2 ▸ hsp) hpe
      · show createPathToExit g s e e.1 e.2 = false
        rw [createPathToExit_apply, if_pos]
        by_cases hy : e.2 = s.2
        · refine Or.inl ⟨hy, fun hxx => hsne (Prod.ext hxx.symm hy.symm), ?_, ?_⟩ <;> omega
        · refine Or.inr ⟨rfl, hy, ?_, ?_⟩ <;> omega

/-- Every conversion recorded by the shift scan lies outside the exclusion
zone and satisfies the neighbor-count rule evaluated on the unmutated grid. -/
lemma collectGo_mem (g : Grid) (w h : ℤ) (e : Cell) (stream : Nat → ℚ) :
    ∀ (l : List Cell) (i : Nat) (c : Cell) (b : Bool),
      (c, b) ∈ collectGo g w h e stream l i →
      9 ≤ distSq c e ∧
        (b = false → g c.1 c.2 = true ∧ openCount g w h c ≤ 2) ∧
        (b = true → g c.1 c.2 = false ∧ 3 ≤ openCount g w h c) := by
  intro l
  induction l with
  | nil => intro i c b hmem; simp [collectGo] at hmem
  | cons d rest ih =>
    intro i c b hmem
    simp only [collectGo] at hmem
    split_ifs at hmem with h1 h2 h3 h4 h5
    · exact ih i c b hmem
    · rcases List.mem_cons.mp hmem with hcb | hm2
      · injection hcb with hc hb
        subst hc; subst hb
        exact ⟨by omega, fun _ => ⟨h3, h4⟩, fun hbt => absurd hbt (by simp)⟩
      · exact ih (i + 1) c b hm2
    · exact ih (i + 1) c b hmem
    · rcases List.mem_cons.mp hmem with hcb | hm2
      · injection hcb with hc hb
        subst hc; subst hb
        refine ⟨by omega, fun hbf => absurd hbf (by simp), fun _ => ⟨?_, h5⟩⟩
        simpa using h3
      · exact ih (i + 1) c b hm2
    · exact ih (i + 1) c b hmem
    · exact ih (i + 1) c b hmem

/-- A cell whose value changed under batch application carries its new
value from some entry of the batch. -/
lemma applyBatch_changed :
    ∀ (l : List (Cell × Bool)) (g : Grid) (x y : ℤ),
      applyBatch l g x y ≠ g x y →
      ∃ b, ((x, y), b) ∈ l ∧ applyBatch l g x y = b := by
  intro l
  induction l with
  | nil => intro g x y hne; simp [applyBatch] at hne
  | cons p rest ih =>
    intro g x y hne
    have hstep : applyBatch (p :: rest) g = applyBatch rest (setCell g p.1 p.2) := rfl
    rw [hstep] at hne ⊢
    by_cases hrec : applyBatch rest (setCell g p.1 p.2) x y = setCell g p.1 p.2 x y
    · rw [hrec] at hne ⊢
      unfold setCell at hne ⊢
      split_ifs at hne ⊢ with hcond
      · refine ⟨p.2, ?_, rfl⟩
        have hxy : ((x, y) : Cell) = p.1 := Prod.ext hcond.1 hcond.2
        rw [hxy]
        exact List.mem_cons_self _ _
      · exact absurd rfl hne
    · obtain ⟨b, hmem, hval⟩ := ih (setCell g p.1 p.2) x y hrec
      exact ⟨b, List.mem_cons_of_mem _ hmem, hval⟩

/-- The mutation phase of a shift firing never writes a cell of the
exclusion zone. -/
lemma applyShift_frame (g : Grid) (w h : ℤ) (e : Cell) (stream : Nat → ℚ)
    (x y : ℤ) (hz : distSq (x, y) e < 9) :
    applyBatch (collectShifts g w h e stream) g x y = g x y := by
  by_contra hne
  obtain ⟨b, hmem, _⟩ := applyBatch_changed _ g x y hne
  have h9 := (collectGo_mem g w h e stream _ 0 (x, y) b hmem).1
  omega

/-- The noise pass never writes a cell of the exclusion zone. -/
lemma noiseGo_frame (w h : ℤ) (e : Cell) (stream : Nat → ℚ) (cx cy : ℤ)
    (hz : distSq (cx, cy) e < 9) :
    ∀ (n : ℕ) (g : Grid) (i : ℕ), noiseGo w h e stream n g i cx cy = g cx cy := by
  have key : ∀ (gg : Grid) (v : Bool) (px py : ℤ), ¬ distSq (px, py) e < 9 →
      setCell gg (px, py) v cx cy = gg cx cy := by
    intro gg v px py hpz
    unfold setCell
    rw [if_neg]
    rintro ⟨ha, hb⟩
    subst ha; subst hb
    exact hpz hz
  intro n
  induction n with
  | zero => intro g i; rfl
  | succ n ih =>
    intro g i
    simp only [noiseGo]
    split_ifs with h1 h2 h3 h4 h5
    · exact ih g (i + 2)
    · rw [ih _ (i + 2)]; exact key g false _ _ h1
    · rw [ih _ (i + 3)]; exact key g true _ _ h1
    · exact ih g (i + 3)
    · exact ih g (i + 2)
    · exact ih g (i + 2)

/-- One random draw scaled by 3 and floored lands in {0, 1, 2}. -/
lemma floorRange3 (q : ℚ) (h0 : 0 ≤ q) (h1 : q < 1) :
    ⌊q * 3⌋ = 0 ∨ ⌊q * 3⌋ = 1 ∨ ⌊q * 3⌋ = 2 := by
  have ha : (0 : ℤ) ≤ ⌊q * 3⌋ := Int.floor_nonneg.mpr (by linarith)
  have hb : ⌊q * 3⌋ < 3 := Int.floor_lt.mpr (by push_cast; linarith)
  omega

lemma floor3_eq_zero (q : ℚ) (h0 : 0 ≤ q) : ⌊q * 3⌋ = 0 ↔ q < 1 / 3 := by
  rw [Int.floor_eq_iff]
  push_cast
  constructor
  · rintro ⟨_, hb⟩; linarith
  · intro hq; exact ⟨by linarith, by linarith⟩

lemma floor3_eq_one (q : ℚ) : ⌊q * 3⌋ = 1 ↔ 1 / 3 ≤ q ∧ q < 2 / 3 := by
  rw [Int.floor_eq_iff]
  push_cast
  constructor
  · rintro ⟨ha, hb⟩; exact ⟨by linarith, by linarith⟩
  · rintro ⟨ha, hb⟩; exact ⟨by linarith, by linarith⟩

lemma floor3_eq_two (q : ℚ) (h1 : q < 1) : ⌊q * 3⌋ = 2 ↔ 2 / 3 ≤ q := by
  rw [Int.floor_eq_iff]
  push_cast
  constructor
  · rintro ⟨ha, _⟩; linarith
  · intro hq; exact ⟨by linarith, by linarith⟩

/-- All-wall grid, the state every generation phase starts from. -/
def allWalls : Grid := fun _ _ => true

/-- Path cells of a concrete 7 by 7 maze with exit (0,0): a trunk corridor
from the exit to (4,3) and a side pocket {(3,3),(3,4),(4,4)} whose only
link to the trunk is the cell (4,3). -/
def pathsC1 : List Cell :=
  [(0, 0), (0, 1), (1, 1), (2, 1), (3, 1), (4, 1), (4, 2), (4, 3), (3, 3), (3, 4), (4, 4)]

/-- The concrete 7 by 7 grid built from `pathsC1`. -/
def gridC1 : Grid := fun x y => decide (¬ ((x, y) : Cell) ∈ pathsC1)

/-- Random stream for one shift firing on `gridC1`: the draw of the 14th
eligible interior cell, which is (4,3), selects it for conversion and every
other draw declines. -/
def streamC1 : Nat → ℚ := fun i => if i = 13 then 0 else 1

/-- Random stream that declines every probabilistic choice. -/
def streamOnes : Nat → ℚ := fun _ => 1

/-- All-wall 6 by 6 grid except the single path cell (1,1), used to
exercise the repair branch of the validator with exit (4,2). -/
def gridC5 : Grid := fun x y => decide (¬ (x = 1 ∧ y = 1))

/-- Random stream driving `createChambers` on a 12 by 12 grid with exit
(2,3): chamber count 2; the first chamber gets center (5,7) and size 5 by
5 (distance 5 from the exit, so it is carved) with one interior pillar at
(4,6); the second chamber gets center (2,2), within distance 5, so it is
skipped. -/
def streamC3 : Nat → ℚ := fun i =>
  if i = 1 then 3 / 8
  else if i = 2 then 5 / 8
  else if i = 3 then 2 / 3
  else if i = 4 then 2 / 3
  else 0

/-- Maze state about to fire a shift: countdown 1 second. -/
def stC8 : MazeSt :=
  { width := 7, height := 7, cellSize := 2, grid := gridC1,
    exitPos := (0, 0), nextShiftTime := 1 }

/-- C1 is false on the code: a concrete shift firing on an everywhere
solvable 7 by 7 maze converts the cut cell (4,3) to a wall, the
re-validation probes only the first path cell in scan order (0,1), which
still reaches the exit, so no repair runs, and afterwards the path cell
(4,4) no longer reaches the exit by breadth-first search. -/
theorem c1_counterexample :
    solvableAll gridC1 7 7 (0, 0) = true ∧
    isPath (shiftMazeWalls gridC1 7 7 (0, 0) streamC1) (4, 4) ∧
    bfsReaches (shiftMazeWalls gridC1 7 7 (0, 0) streamC1) 7 7 (4, 4) (0, 0) = false := by
  have hbatch : collectShifts gridC1 7 7 (0, 0) streamC1 = [((4, 3), true)] := by decide
  have hsw : shiftMazeWalls gridC1 7 7 (0, 0) streamC1 =
      ensureMazeIsSolvable (setCell gridC1 (4, 3) true) 7 7 (0, 0) := by
    unfold shiftMazeWalls
    rw [hbatch]
    rfl
  have hf : findStart (setCell gridC1 (4, 3) true) 7 7 (0, 0) = some (0, 1) := by decide
  have hbfs : bfsReaches (setCell gridC1 (4, 3) true) 7 7 (0, 1) (0, 0) = true := by decide
  have hens : ensureMazeIsSolvable (setCell gridC1 (4, 3) true) 7 7 (0, 0) =
      setCell gridC1 (4, 3) true := by
    unfold ensureMazeIsSolvable
    rw [hf]
    show (if bfsReaches (setCell gridC1 (4, 3) true) 7 7 (0, 1) (0, 0) = true
        then setCell gridC1 (4, 3) true
        else createPathToExit (setCell gridC1 (4, 3) true) (0, 1) (0, 0)) =
      setCell gridC1 (4, 3) true
    rw [if_pos hbfs]
  refine ⟨by decide, ?_, ?_⟩
  · rw [hsw, hens]; decide
  · rw [hsw, hens]; decide

/-- C1 (amended): after `ensureMazeIsSolvable` — the final step of both
`generateMaze` and every shift firing — the probe-start cell (the first
path cell in scan order, when one exists) is 4-connected to the exit
through path cells; solvability from every other path cell is not
guaranteed. -/
theorem c1_probe_start_reaches_exit (g : Grid) (w h : ℤ) (e s : Cell)
    (he : inBounds w h e) (hs : findStart g w h e = some s) :
    Reaches (ensureMazeIsSolvable g w h e) w h s e := by
  obtain ⟨hsb, hsp, hsne⟩ := findStart_some g w h e s hs
  unfold ensureMazeIsSolvable
  rw [hs]
  show Reaches (if bfsReaches g w h s e = true then g else createPathToExit g s e) w h s e
  split_ifs with hb
  · exact bfsReaches_sound g w h s e hb
  · exact reaches_corridor g w h s e hsb he

/-- Witness for the amended C1 at a concrete unsolvable grid. -/
theorem c1_witness :
    inBounds 6 6 ((4, 2) : Cell) ∧
    findStart gridC5 6 6 (4, 2) = some (1, 1) ∧
    Reaches (ensureMazeIsSolvable gridC5 6 6 (4, 2)) 6 6 (1, 1) (4, 2) :=
  ⟨by decide, by decide,
    c1_probe_start_reaches_exit gridC5 6 6 (4, 2) (1, 1) (by decide) (by decide)⟩

/-- C2: the exit is a path cell at the end of every `generateMaze` call and
every shift firing.  Both pipelines end with `ensureMazeIsSolvable`; given
any path cell in the grid at that point (the degenerate all-wall state is
the condition §7 of the specification singles out), the validator leaves or
restores the exit as path, and the shift's mutation phase never writes any
cell within distance 3 of the exit, in particular not the exit. -/
theorem c2_exit_stays_path :
    (∀ (g : Grid) (w h : ℤ) (e : Cell),
        (∃ c, inBounds w h c ∧ isPath g c) →
        isPath (ensureMazeIsSolvable g w h e) e) ∧
    (∀ (g : Grid) (w h : ℤ) (e : Cell) (stream : Nat → ℚ),
        isPath g e → isPath (shiftMazeWalls g w h e stream) e) := by
  constructor
  · intro g w h e hex
    exact ensure_exit_path g w h e hex
  · intro g w h e stream hpe
    unfold shiftMazeWalls
    apply ensure_keeps_path
    show applyBatch (collectShifts g w h e stream) g e.1 e.2 = false
    rw [applyShift_frame g w h e stream e.1 e.2 (by simp [distSq])]
    exact hpe

/-- Witness for C2 on the concrete 7 by 7 maze and shift firing. -/
theorem c2_witness :
    isPath (ensureMazeIsSolvable gridC1 7 7 (0, 0)) (0, 0) ∧
    isPath (shiftMazeWalls gridC1 7 7 (0, 0) streamC1) (0, 0) :=
  ⟨c2_exit_stays_path.1 gridC1 7 7 (0, 0) ⟨(0, 1), by decide, by decide⟩,
   c2_exit_stays_path.2 gridC1 7 7 (0, 0) streamC1 (by decide)⟩

unseal Rat.mul Rat.add Rat.sub Rat.inv in
/-- C3 is false on the code: the chamber pass has no per-cell exclusion
check, only a center check at distance 5, and a chamber centered at (5,7)
with half-width 2 carves the cell (3,5), which lies at squared distance 5,
hence within Euclidean distance 3, of the exit (2,3), converting it from
wall to path. -/
theorem c3_counterexample :
    distSq (3, 5) (2, 3) < 9 ∧
    allWalls 3 5 = true ∧
    createChambers allWalls 12 12 (2, 3) streamC3 3 5 = false := by
  exact ⟨by decide, by decide, by decide⟩

/-- C3 (amended): only the noise pass and the shift's conversion scan skip
the exclusion zone: neither ever changes a cell within Euclidean distance 3
of the exit; the chamber, architectural-feature and corridor-widening
passes do not respect the zone, and the post-shift repair may also carve
inside it. -/
theorem c3_noise_and_shift_respect_zone (g : Grid) (w h : ℤ) (e : Cell)
    (stream : Nat → ℚ) (cx cy : ℤ) (hz : distSq (cx, cy) e < 9) :
    addRandomVariations g w h e stream cx cy = g cx cy ∧
    applyBatch (collectShifts g w h e stream) g cx cy = g cx cy :=
  ⟨noiseGo_frame w h e stream cx cy hz _ g 0,
   applyShift_frame g w h e stream cx cy hz⟩

/-- Witness for the amended C3 at a concrete zone cell. -/
theorem c3_witness :
    distSq (1, 1) (0, 0) < 9 ∧
    (addRandomVariations gridC1 7 7 (0, 0) streamOnes 1 1 = gridC1 1 1 ∧
     applyBatch (collectShifts gridC1 7 7 (0, 0) streamOnes) gridC1 1 1 = gridC1 1 1) :=
  ⟨by decide,
   c3_noise_and_shift_respect_zone gridC1 7 7 (0, 0) streamOnes 1 1 (by decide)⟩

/-- C4: during the batch phase of a shift firing a wall cell becomes a path
only if it has at most 2 open orthogonal neighbors and a path cell becomes
a wall only if it has at least 3 open orthogonal neighbors, every count
evaluated on the grid as it stood before the whole batch was applied. -/
theorem c4_shift_conversion_rules (g : Grid) (w h : ℤ) (e : Cell)
    (stream : Nat → ℚ) (c : Cell) :
    (g c.1 c.2 = true →
      applyBatch (collectShifts g w h e stream) g c.1 c.2 = false →
      openCount g w h c ≤ 2) ∧
    (g c.1 c.2 = false →
      applyBatch (collectShifts g w h e stream) g c.1 c.2 = true →
      3 ≤ openCount g w h c) := by
  constructor
  · intro hw hchg
    have hne : applyBatch (collectShifts g w h e stream) g c.1 c.2 ≠ g c.1 c.2 := by
      rw [hw, hchg]; simp
    obtain ⟨b, hmem, hval⟩ := applyBatch_changed _ g c.1 c.2 hne
    have hb : b = false := by rw [← hval, hchg]
    subst hb
    exact ((collectGo_mem g w h e stream _ 0 (c.1, c.2) false hmem).2.1 rfl).2
  · intro hp hchg
    have hne : applyBatch (collectShifts g w h e stream) g c.1 c.2 ≠ g c.1 c.2 := by
      rw [hp, hchg]; simp
    obtain ⟨b, hmem, hval⟩ := applyBatch_changed _ g c.1 c.2 hne
    have hb : b = true := by rw [← hval, hchg]
    subst hb
    exact ((collectGo_mem g w h e stream _ 0 (c.1, c.2) true hmem).2.2 rfl).2

/-- Witness for C4: the concrete firing converts the path cell (4,3), which
has exactly 3 open neighbors in the pre-shift grid. -/
theorem c4_witness :
    gridC1 4 3 = false ∧
    applyBatch (collectShifts gridC1 7 7 (0, 0) streamC1) gridC1 4 3 = true ∧
    3 ≤ openCount gridC1 7 7 (4, 3) :=
  ⟨by decide, by decide,
   (c4_shift_conversion_rules gridC1 7 7 (0, 0) streamC1 (4, 3)).2
     (by decide) (by decide)⟩

/-- C5: when validation finds no path, the repair carves exactly the
axis-aligned L corridor (unconditionally clearing every traversed cell and
touching nothing else), and afterwards the probe start is 4-connected to
the exit through path cells: the repair always succeeds. -/
theorem c5_repair_carves_corridor (g : Grid) (w h : ℤ) (s e : Cell)
    (hs : inBounds w h s) (he : inBounds w h e) (hsp : isPath g s)
    (hnb : bfsReaches g w h s e = false) :
    (∀ c : Cell, createPathToExit g s e c.1 c.2 =
        if lCorridor s e c then false else g c.1 c.2) ∧
    Reaches (createPathToExit g s e) w h s e := by
  constructor
  · intro c
    exact createPathToExit_apply g s e c.1 c.2
  · exact reaches_corridor g w h s e hs he

/-- Witness for C5 at a concrete unsolvable grid. -/
theorem c5_witness :
    inBounds 6 6 ((1, 1) : Cell) ∧ inBounds 6 6 ((4, 2) : Cell) ∧
    isPath gridC5 (1, 1) ∧ bfsReaches gridC5 6 6 (1, 1) (4, 2) = false ∧
    ((∀ c : Cell, createPathToExit gridC5 (1, 1) (4, 2) c.1 c.2 =
        if lCorridor (1, 1) (4, 2) c then false else gridC5 c.1 c.2) ∧
     Reaches (createPathToExit gridC5 (1, 1) (4, 2)) 6 6 (1, 1) (4, 2)) :=
  ⟨by decide, by decide, by decide, by decide,
   c5_repair_carves_corridor gridC5 6 6 (1, 1) (4, 2)
     (by decide) (by decide) (by decide) (by decide)⟩

/-- C6: the validator is idempotent on solvable mazes: when every path
cell reaches the exit by breadth-first search, `ensureMazeIsSolvable`
changes no grid cell. -/
theorem c6_validator_idempotent (g : Grid) (w h : ℤ) (e : Cell)
    (hsolv : solvableAll g w h e = true) :
    ∀ x y, ensureMazeIsSolvable g w h e x y = g x y := by
  intro x y
  unfold ensureMazeIsSolvable
  cases hfs : findStart g w h e with
  | none => rfl
  | some s =>
    show (if bfsReaches g w h s e = true then g else createPathToExit g s e) x y = g x y
    have hb : bfsReaches g w h s e = true := by
      obtain ⟨hsb, hsp, _⟩ := findStart_some g w h e s hfs
      have hmem : s ∈ cellList w h := (mem_cellList w h s).mpr hsb
      have hall := List.all_eq_true.mp hsolv s hmem
      have hcp : g s.1 s.2 = false := hsp
      simpa [hcp] using hall
    rw [if_pos hb]

/-- Witness for C6 on a concrete solvable maze. -/
theorem c6_witness :
    solvableAll gridC1 7 7 (0, 0) = true ∧
    ensureMazeIsSolvable gridC1 7 7 (0, 0) 4 4 = gridC1 4 4 :=
  ⟨by decide, c6_validator_idempotent gridC1 7 7 (0, 0) (by decide) 4 4⟩

/-- C7 is false on the code: `patternType = Math.floor(Math.random() * 3)`
only takes the values 0, 1, 2, which dispatch to the geometric, concentric
and symmetric generators; the switch default running the spanning-tree
(Prim) generator is unreachable, so no random draw ever selects it. -/
theorem c7_counterexample :
    ¬ ∃ q : ℚ, 0 ≤ q ∧ q < 1 ∧ selectedPattern q = PatternKind.spanningTree := by
  rintro ⟨q, h0, h1, hsel⟩
  rcases floorRange3 q h0 h1 with hk | hk | hk <;>
    simp [selectedPattern, patternFor, hk] at hsel

/-- C7 (amended): the generation-time pattern choice is uniform over the
three generators geometric, concentric, symmetric — each selected on an
interval of length one third of the unit draw — and the spanning-tree
generator is never selected. -/
theorem c7_three_patterns_uniform (q : ℚ) (h0 : 0 ≤ q) (h1 : q < 1) :
    selectedPattern q ≠ PatternKind.spanningTree ∧
    (selectedPattern q = PatternKind.geometric ↔ q < 1 / 3) ∧
    (selectedPattern q = PatternKind.concentric ↔ 1 / 3 ≤ q ∧ q < 2 / 3) ∧
    (selectedPattern q = PatternKind.symmetric ↔ 2 / 3 ≤ q) := by
  rcases floorRange3 q h0 h1 with hk | hk | hk
  · have hq := (floor3_eq_zero q h0).mp hk
    have hsel : selectedPattern q = PatternKind.geometric := by
      simp [selectedPattern, patternFor, hk]
    rw [hsel]
    exact ⟨by decide, iff_of_true rfl hq,
      iff_of_false (by decide) (by rintro ⟨hc, _⟩; linarith),
      iff_of_false (by decide) (by intro hc; linarith)⟩
  · have hq := (floor3_eq_one q).mp hk
    have hsel : selectedPattern q = PatternKind.concentric := by
      simp [selectedPattern, patternFor, hk]
    rw [hsel]
    exact ⟨by decide, iff_of_false (by decide) (by intro hc; linarith [hq.1]),
      iff_of_true rfl hq,
      iff_of_false (by decide) (by intro hc; linarith [hq.2])⟩
  · have hq := (floor3_eq_two q h1).mp hk
    have hsel : selectedPattern q = PatternKind.symmetric := by
      simp [selectedPattern, patternFor, hk]
    rw [hsel]
    exact ⟨by decide, iff_of_false (by decide) (by intro hc; linarith),
      iff_of_false (by decide) (by rintro ⟨_, hc⟩; linarith),
      iff_of_true rfl hq⟩

/-- Witness for the amended C7 at the draw 0. -/
theorem c7_witness :
    (0 : ℚ) ≤ 0 ∧ (0 : ℚ) < 1 ∧
    (selectedPattern 0 ≠ PatternKind.spanningTree ∧
     (selectedPattern 0 = PatternKind.geometric ↔ (0 : ℚ) < 1 / 3) ∧
     (selectedPattern 0 = PatternKind.concentric ↔ 1 / 3 ≤ (0 : ℚ) ∧ (0 : ℚ) < 2 / 3) ∧
     (selectedPattern 0 = PatternKind.symmetric ↔ 2 / 3 ≤ (0 : ℚ))) :=
  ⟨le_refl 0, by norm_num, c7_three_patterns_uniform 0 (le_refl 0) (by norm_num)⟩

unseal Rat.mul Rat.add Rat.sub Rat.inv in
/-- C8 is false on the code: a firing whose batch is empty and whose
re-validation changes nothing still returns true — `updateMaze` returns
true whenever the countdown fires, not when a cell changed.  Concretely,
on the solvable maze `gridC1` with a stream declining every conversion,
the call returns true while every grid cell is unchanged. -/
theorem c8_counterexample :
    (updateMaze stC8 2000 streamOnes).1 = true ∧
    ∀ c ∈ cellList 7 7, (updateMaze stC8 2000 streamOnes).2.grid c.1 c.2 =
      stC8.grid c.1 c.2 := by
  have hcond : stC8.nextShiftTime - 2000 / 1000 ≤ 0 := by decide
  have hfire1 : (updateMaze stC8 2000 streamOnes).1 = true := by
    simp only [updateMaze]
    rw [if_pos hcond]
  have hfire2 : (updateMaze stC8 2000 streamOnes).2.grid =
      shiftMazeWalls gridC1 7 7 (0, 0) streamOnes := by
    simp only [updateMaze]
    rw [if_pos hcond]
    rfl
  have hbatch : collectShifts gridC1 7 7 (0, 0) streamOnes = [] := by decide
  have hf : findStart gridC1 7 7 (0, 0) = some (0, 1) := by decide
  have hbfs : bfsReaches gridC1 7 7 (0, 1) (0, 0) = true := by decide
  have hsw : shiftMazeWalls gridC1 7 7 (0, 0) streamOnes = gridC1 := by
    unfold shiftMazeWalls
    rw [hbatch]
    show ensureMazeIsSolvable gridC1 7 7 (0, 0) = gridC1
    unfold ensureMazeIsSolvable
    rw [hf]
    show (if bfsReaches gridC1 7 7 (0, 1) (0, 0) = true
        then gridC1 else createPathToExit gridC1 (0, 1) (0, 0)) = gridC1
    rw [if_pos hbfs]
  refine ⟨hfire1, ?_⟩
  intro c hc
  rw [hfire2, hsw]
  rfl

/-- C8 (amended): `updateMaze` returns true exactly when the decremented
countdown reaches zero or below, independently of whether any cell
changed. -/
theorem c8_update_returns_fired (st : MazeSt) (dt : ℚ) (stream : Nat → ℚ) :
    (updateMaze st dt stream).1 = true ↔ st.nextShiftTime - dt / 1000 ≤ 0 := by
  simp only [updateMaze]
  split_ifs with ht
  · exact iff_of_true rfl ht
  · exact iff_of_false (by simp) ht

/-- C9 is false on the code: the constructor performs no dimension
validation; width 0 is accepted and an instance (with an empty grid and
exit (0,0)) is produced rather than rejected — even together with a
negative height, since the height-length columns are only built inside the
map over the width-length array. -/
theorem c9_counterexample :
    (mkMazeGenerator 0 5 2).isSome = true ∧
    (mkMazeGenerator 0 (-5) 2).isSome = true := by
  exact ⟨by decide, by decide⟩

/-- C9 (amended): construction succeeds exactly when the width is
nonnegative and, whenever the width is positive, the height is nonnegative
too: `Array(width)` throws for a negative width, while `Array(height)` is
evaluated only inside the map over the width-length array, so with width 0
even a negative height succeeds; the accepted degenerate dimensions
produce a Maze instance instead of a rejection. -/
theorem c9_constructor_success_iff (w h : ℤ) (cs : ℚ) :
    (mkMazeGenerator w h cs).isSome = true ↔ 0 ≤ w ∧ (w = 0 ∨ 0 ≤ h) := by
  unfold mkMazeGenerator
  split_ifs with hcond
  · exact iff_of_false (by simp) (by omega)
  · exact iff_of_true rfl (by omega)

/-- C10: the validator is monotone on path cells: `ensureMazeIsSolvable`,
including its repair branch, never converts a path cell to a wall. -/
theorem c10_validator_monotone (g : Grid) (w h : ℤ) (e c : Cell)
    (hp : isPath g c) : isPath (ensureMazeIsSolvable g w h e) c :=
  ensure_keeps_path g w h e c hp

/-- Witness for C10 on a concrete grid whose repair branch runs. -/
theorem c10_witness :
    isPath gridC5 (1, 1) ∧ isPath (ensureMazeIsSolvable gridC5 6 6 (4, 2)) (1, 1) :=
  ⟨by decide, c10_validator_monotone gridC5 6 6 (4, 2) (1, 1) (by decide)⟩

end Maze
